import Mathlib

/-!
Verification development for the `pplmatch` speaker-matching core
(`normalizer.py`, `legislature.py`, `matcher.py`).

Python strings are modelled as `List Char` (Unicode scalar values, the same
character model as CPython `str`).  Python numeric scores (floats produced by
`rapidfuzz` and the weighted formulas) are modelled as exact rationals `ℚ`.
Fallible Python code (statements that can raise) is modelled with
`Except PyErr`.  Dictionaries are modelled as insertion-ordered association
lists with Python's assignment semantics (update-in-place keeps the key's
original position, new keys are appended).
-/

abbrev Str := List Char

/-- Python exceptions raised by the modelled code paths.  Both constructors
model a CPython `ValueError`:
* `valueErrorInvalidIso` — `date.fromisoformat` on a non-ISO string
  ("Invalid isoformat string");
* `valueErrorUnpack` — tuple unpacking arity mismatch
  ("too many values to unpack (expected 2)"). -/
inductive PyErr where
  | valueErrorInvalidIso
  | valueErrorUnpack
deriving DecidableEq

/-- Checks whether an `Except` computation finished without raising. -/
def exceptOk {α : Type} : Except PyErr α → Bool
  | Except.ok _ => true
  | Except.error _ => false

/-- Python tuple unpacking `a, b = t` where `t` is a 3-tuple: CPython raises
`ValueError: too many values to unpack (expected 2)` regardless of the
values inside the tuple. -/
def unpack2of3 {α β γ : Type} (_t : α × β × γ) : Except PyErr (α × β) :=
  Except.error PyErr.valueErrorUnpack

/-- Whitespace for Python `str.strip()` / `str.split()` / regex `\s`,
modelled on the ASCII whitespace characters (space, tab, newline, carriage
return, form feed, vertical tab). -/
def pyIsSpace (c : Char) : Bool :=
  c = ' ' ∨ c = '\t' ∨ c = '\n' ∨ c = '\r' ∨ c.toNat = 12 ∨ c.toNat = 11

/-- Drops trailing characters satisfying `pyIsSpace` (structural recursion
from the left: a character is kept unless everything after it is dropped and
it is itself whitespace). -/
def stripEnd : Str → Str
  | [] => []
  | c :: rest =>
    let r := stripEnd rest
    if r = [] ∧ pyIsSpace c then [] else c :: r

/-- Python `str.strip()`: removes leading and trailing whitespace. -/
def pyStrip (s : Str) : Str :=
  stripEnd (s.dropWhile pyIsSpace)

/-- Accumulator worker for `pySplitWS`. -/
def splitWSAux : Str → Str → List Str
  | [], cur => if cur = [] then [] else [cur.reverse]
  | c :: rest, cur =>
    if pyIsSpace c then
      if cur = [] then splitWSAux rest [] else cur.reverse :: splitWSAux rest []
    else splitWSAux rest (c :: cur)

/-- Python `str.split()` with no argument: splits on whitespace runs and
drops empty fields. -/
def pySplitWS (s : Str) : List Str := splitWSAux s []

/-- Accumulator worker for `pySplitOn`. -/
def splitOnAux (sep : Char) : Str → Str → List Str
  | [], cur => [cur.reverse]
  | c :: rest, cur =>
    if c = sep then cur.reverse :: splitOnAux sep rest []
    else splitOnAux sep rest (c :: cur)

/-- Python `str.split(sep)`: splits on every separator occurrence and keeps
empty fields. -/
def pySplitOn (sep : Char) (s : Str) : List Str := splitOnAux sep s []

/-- Worker for `collapseWS`; the flag records whether the previous input
character was whitespace (in which case further whitespace is swallowed by
the same replacement). -/
def collapseWSGo : Str → Bool → Str
  | [], _ => []
  | c :: rest, prev =>
    if pyIsSpace c then
      if prev then collapseWSGo rest true else ' ' :: collapseWSGo rest true
    else c :: collapseWSGo rest false

/-- Python `re.sub(r"\s+", " ", s)`: every maximal whitespace run becomes a
single space. -/
def collapseWS (s : Str) : Str := collapseWSGo s false

/-- Python dict assignment `d[k] = v` on an insertion-ordered dictionary:
an existing key keeps its position and gets the new value, a new key is
appended. -/
def dictInsert {α : Type} (d : List (Str × α)) (k : Str) (v : α) : List (Str × α) :=
  match d with
  | [] => [(k, v)]
  | (k', v') :: rest => if k' = k then (k, v) :: rest else (k', v') :: dictInsert rest k v

/-- Python dict lookup `d[k]` / `k in d` (keys are unique by construction,
so first match suffices). -/
def dictLookup {α : Type} (d : List (Str × α)) (k : Str) : Option α :=
  match d with
  | [] => none
  | (k', v) :: rest => if k' = k then some v else dictLookup rest k

/-- Python pattern `if k not in d: d[k] = []` followed by `d[k].append(v)`. -/
def dictAppend {α : Type} (d : List (Str × List α)) (k : Str) (v : α) : List (Str × List α) :=
  match d with
  | [] => [(k, [v])]
  | (k', vs) :: rest =>
    if k' = k then (k', vs ++ [v]) :: rest else (k', vs) :: dictAppend rest k v

/-- Python `set.add` on a set modelled as a duplicate-free list; only
membership and cardinality of the resulting set are ever consumed by the
modelled code, so the list order is immaterial. -/
def setAdd (s : List Str) (x : Str) : List Str :=
  if x ∈ s then s else s ++ [x]

/-- Python `set(...)` of a list of strings, modelled as a duplicate-free
list.  The modelled code only consumes the set's cardinality and, when it is
a singleton, its unique element (`set.pop`), both independent of order. -/
def listDedup : List Str → List Str
  | [] => []
  | x :: rest => if x ∈ rest then listDedup rest else x :: listDedup rest

/-- Decimal digit character. -/
def digitChar (d : Nat) : Char := Char.ofNat (48 + d)

/-- Fueled worker for `natToStr`. -/
def natToStrGo : Nat → Nat → Str → Str
  | 0, _, acc => acc
  | fuel + 1, n, acc =>
    if n < 10 then digitChar n :: acc
    else natToStrGo fuel (n / 10) (digitChar (n % 10) :: acc)

/-- Python `str(n)` for a natural number. -/
def natToStr (n : Nat) : Str := natToStrGo (n + 1) n []

/-- Lexicographic comparison of strings by code point, the order used by
Python `<=` on `str` and hence by `sorted()`. -/
def strLeB : Str → Str → Bool
  | [], _ => true
  | _ :: _, [] => false
  | a :: as, b :: bs =>
    if a.toNat < b.toNat then true
    else if b.toNat < a.toNat then false
    else strLeB as bs

/-- Propositional form of `strLeB`, used as the sorting relation. -/
def strLeP (a b : Str) : Prop := strLeB a b = true

instance : DecidableRel strLeP := fun a b => decEq (strLeB a b) true

/-- Python `"; ".join(names)`. -/
def joinSemi (names : List Str) : Str := List.intercalate (("; ").data) names

/-- Python substring test `sub in s`. -/
def strIn (sub : Str) : Str → Bool
  | [] => sub.isPrefixOf []
  | c :: rest => sub.isPrefixOf (c :: rest) || strIn sub rest

/-!  Character-level model of the Unicode operations used by `normalizer.py`.
`pyLowerChar` models `str.lower()` on the Basic Latin and Latin-1 ranges (the
alphabet the program's data uses) and is the identity elsewhere; `nfdChar`
models canonical decomposition (NFD) restricted to the Latin-1 accented
letters appearing in Quebec French names, and is the identity on every other
character (NFD is the identity on unaccented ASCII). -/

/-- Python `str.lower()` per character, modelled on ASCII `A`-`Z` and the
Latin-1 uppercase letters `À`-`Þ` (excluding `×`); identity elsewhere. -/
def pyLowerChar (c : Char) : Char :=
  let v := c.toNat
  if 65 ≤ v ∧ v ≤ 90 then Char.ofNat (v + 32)
  else if (192 ≤ v ∧ v ≤ 214) ∨ (216 ≤ v ∧ v ≤ 222) then Char.ofNat (v + 32)
  else c

/-- Python `str.lower()` on a whole string. -/
def pyLower (s : Str) : Str := s.map pyLowerChar

/-- Canonical decomposition (NFD) of one character, restricted to the
Latin-1 accented letters used by the data; each maps to its base letter
followed by the real combining mark (grave U+0300, acute U+0301, circumflex
U+0302, diaeresis U+0308, cedilla U+0327).  NFD is the identity on ASCII,
which the guard makes explicit. -/
def nfdChar (c : Char) : List Char :=
  if c.toNat < 192 then [c]
  else match c with
  | 'À' => ['A', Char.ofNat 768] | 'Â' => ['A', Char.ofNat 770] | 'Ä' => ['A', Char.ofNat 776]
  | 'Ç' => ['C', Char.ofNat 807]
  | 'È' => ['E', Char.ofNat 768] | 'É' => ['E', Char.ofNat 769] | 'Ê' => ['E', Char.ofNat 770]
  | 'Ë' => ['E', Char.ofNat 776]
  | 'Î' => ['I', Char.ofNat 770] | 'Ï' => ['I', Char.ofNat 776]
  | 'Ô' => ['O', Char.ofNat 770] | 'Ö' => ['O', Char.ofNat 776]
  | 'Ù' => ['U', Char.ofNat 768] | 'Û' => ['U', Char.ofNat 770] | 'Ü' => ['U', Char.ofNat 776]
  | 'à' => ['a', Char.ofNat 768] | 'â' => ['a', Char.ofNat 770] | 'ä' => ['a', Char.ofNat 776]
  | 'ç' => ['c', Char.ofNat 807]
  | 'è' => ['e', Char.ofNat 768] | 'é' => ['e', Char.ofNat 769] | 'ê' => ['e', Char.ofNat 770]
  | 'ë' => ['e', Char.ofNat 776]
  | 'î' => ['i', Char.ofNat 770] | 'ï' => ['i', Char.ofNat 776]
  | 'ô' => ['o', Char.ofNat 770] | 'ö' => ['o', Char.ofNat 776]
  | 'ù' => ['u', Char.ofNat 768] | 'û' => ['u', Char.ofNat 770] | 'ü' => ['u', Char.ofNat 776]
  | 'ÿ' => ['y', Char.ofNat 776]
  | _ => [c]

/-- Unicode category `Mn` (nonspacing combining marks), modelled on the
combining diacritical marks block U+0300-U+036F, which contains every mark
`nfdChar` can emit. -/
def isMn (c : Char) : Bool := 768 ≤ c.toNat ∧ c.toNat ≤ 879

/-- `strip_accents` from `normalizer.py`: NFD-decompose, then drop
combining marks. -/
def strip_accents (s : Str) : Str :=
  if s = [] then []
  else ((s.map nfdChar).flatten).filter (fun c => ¬ isMn c)

/-- Keeps only lowercase ASCII letters and spaces; Python
`re.sub(r"[^a-z ]", "", s)`. -/
def filterAlpha (s : Str) : Str :=
  s.filter (fun c => (97 ≤ c.toNat ∧ c.toNat ≤ 122) ∨ c = ' ')

/-!  `normalizer.py`: classification tables and regex models. -/

/-- `ROLES` from `normalizer.py`. -/
def ROLES : List Str :=
  [("le president").data, ("la presidente").data,
   ("le vice-president").data, ("la vice-presidente").data,
   ("le president suppleant").data, ("la presidente suppleante").data,
   ("une voix").data, ("des voix").data,
   ("le secretaire").data, ("la secretaire").data,
   ("le secretaire adjoint").data, ("la secretaire adjointe").data,
   ("le greffier").data, ("la greffiere").data,
   ("mise aux voix").data, ("motion").data, ("ordre du jour").data]

/-- `ROLE_PREFIXES` from `normalizer.py`. -/
def ROLE_PREFIXES : List Str :=
  [("le president").data, ("la presidente").data,
   ("le vice-president").data, ("la vice-presidente").data,
   ("le secretaire").data, ("la secretaire").data,
   ("le greffier").data, ("la greffiere").data]

/-- `CROWDS` from `normalizer.py`. -/
def CROWDS : List Str := [("des voix").data]

/-- Procedural keywords checked by `classify_speaker`. -/
def ROLE_KEYWORDS : List Str :=
  [("mise aux voix").data, ("motion").data, ("grief").data]

/-- Python `\d` (modelled on ASCII digits). -/
def pyIsDigit (c : Char) : Bool := 48 ≤ c.toNat ∧ c.toNat ≤ 57

/-- `LEADING_NUMS_RE.sub("", s)`: the regex `^[\d\s]+` removes the leading
run of digits and whitespace. -/
def dropLeadingNums (s : Str) : Str :=
  s.dropWhile (fun c => pyIsDigit c || pyIsSpace c)

/-- `classify_speaker` from `normalizer.py`. -/
def classify_speaker (raw : Str) : Str :=
  if pyStrip raw = [] then ("empty").data
  else
    let cleaned := pyStrip raw
    let cleaned := pyStrip (dropLeadingNums cleaned)
    let lower := pyLower cleaned
    let lowerNoAccent := strip_accents lower
    if lowerNoAccent ∈ CROWDS then ("crowd").data
    else if lowerNoAccent ∈ ROLES then ("role").data
    else if ROLE_PREFIXES.any (fun p => p.isPrefixOf lowerNoAccent) then ("role").data
    else if ROLE_KEYWORDS.any (fun k => strIn k lowerNoAccent) then ("role").data
    else ("person").data

/-- Character class `[A-ZÀ-ÖØ-Ý]` under `re.IGNORECASE`: the ASCII letters
plus the Latin-1 letters `À`-`Ö`, `Ø`-`Ý` and their lowercase counterparts
`à`-`ö`, `ø`-`ý`. -/
def isNameLetterIC (c : Char) : Bool :=
  let v := c.toNat
  (65 ≤ v ∧ v ≤ 90) ∨ (97 ≤ v ∧ v ≤ 122) ∨
  (192 ≤ v ∧ v ≤ 214) ∨ (216 ≤ v ∧ v ≤ 221) ∨
  (224 ≤ v ∧ v ≤ 246) ∨ (248 ≤ v ∧ v ≤ 253)

/-- Scan for `TRAILING_DISTRICT_RE` (`,\s*([A-ZÀ-ÖØ-Ý][^(\-]*)$` with
`IGNORECASE`): finds the leftmost comma after which, skipping whitespace, a
name letter starts a tail that runs to the end of the string containing no
`(` and no `-`.  Returns the part before the comma and the captured group. -/
def districtScan : Str → Str → Option (Str × Str)
  | _, [] => none
  | acc, c :: rest =>
    if c = ',' then
      match rest.dropWhile pyIsSpace with
      | d :: ds =>
        if isNameLetterIC d ∧ ds.all (fun x => x ≠ '(' ∧ x ≠ '-') then
          some (acc.reverse, d :: ds)
        else districtScan (c :: acc) rest
      | [] => districtScan (c :: acc) rest
    else districtScan (c :: acc) rest

/-- Action keywords of `TRAILING_ACTION_RE`. -/
def ACTION_KEYWORDS : List Str :=
  [("réplique").data, ("suite").data, ("en remplacement").data,
   ("par intérim").data, ("suppléant").data, ("suppléante").data]

/-- Case-insensitive prefix strip (regex `IGNORECASE` literal match),
comparing characters through `pyLowerChar`. -/
def stripPrefixCI : Str → Str → Option Str
  | [], rest => some rest
  | _ :: _, [] => none
  | k :: ks, c :: cs =>
    if pyLowerChar k = pyLowerChar c then stripPrefixCI ks cs else none

/-- Tail class `[\)\s]*$` of `TRAILING_ACTION_RE`. -/
def actionTailOk (s : Str) : Bool := s.all (fun c => c = ')' || pyIsSpace c)

/-- Whether a suffix matches `TRAILING_ACTION_RE`
(`\s*([\(\-–—]\s*)?(réplique|suite|en remplacement|par intérim|suppléant|suppléante)[\)\s]*$`,
`IGNORECASE`): optional whitespace, an optional opening delimiter with
trailing whitespace, a keyword, then only `)` and whitespace to the end. -/
def matchesActionSuffix (suf : Str) : Bool :=
  let t1 := suf.dropWhile pyIsSpace
  let tryKw := fun (t : Str) =>
    ACTION_KEYWORDS.any (fun kw =>
      match stripPrefixCI kw t with
      | some r => actionTailOk r
      | none => false)
  tryKw t1 ||
    (match t1 with
     | c :: rest =>
       if c = '(' ∨ c = '-' ∨ c = '–' ∨ c = '—' then tryKw (rest.dropWhile pyIsSpace)
       else false
     | [] => false)

/-- `TRAILING_ACTION_RE.sub("", s)`: removes the suffix starting at the
leftmost position where the pattern matches through to the end; leaves the
string unchanged when there is no match. -/
def actionScan : Str → Str → Str
  | acc, rest =>
    if matchesActionSuffix rest then acc.reverse
    else match rest with
      | [] => acc.reverse
      | c :: t => actionScan (c :: acc) t

/-- `HONORIFIC_GLUED_RE.sub(r"\2", s)` (`^(M\.|Mme\.?)([A-ZÀ-ÖØ-Ý])`,
`IGNORECASE`): an honorific glued to a capitalized name keeps only the name.
Alternation order follows the regex: `M\.` first, then `Mme\.?` (with the
optional dot taken greedily). -/
def gluedSub (s : Str) : Str :=
  match s with
  | m :: d :: c :: rest =>
    if pyLowerChar m = 'm' ∧ d = '.' ∧ isNameLetterIC c then c :: rest
    else gluedSubMme s
  | _ => gluedSubMme s
where
  /-- The `Mme\.?` alternative. -/
  gluedSubMme (s : Str) : Str :=
    match s with
    | m1 :: m2 :: e :: tail =>
      if pyLowerChar m1 = 'm' ∧ pyLowerChar m2 = 'm' ∧ pyLowerChar e = 'e' then
        match tail with
        | '.' :: c :: rest => if isNameLetterIC c then c :: rest
                              else m1 :: m2 :: e :: tail
        | c :: rest => if isNameLetterIC c then c :: rest
                       else m1 :: m2 :: e :: tail
        | [] => m1 :: m2 :: e :: tail
      else m1 :: m2 :: e :: tail
    | _ => s

/-- `HONORIFICS_RE.sub("", s)`
(`^(M\.\s*|Mme\s+|Mme\.\s*|Mr\.\s*|Mr\s+)`, `IGNORECASE`): strips a leading
honorific together with the following whitespace, trying the alternatives in
the regex's order. -/
def honorificSub (s : Str) : Str :=
  match s with
  | m :: '.' :: rest =>
    if pyLowerChar m = 'm' then rest.dropWhile pyIsSpace else s
  | m1 :: m2 :: e :: tail =>
    if pyLowerChar m1 = 'm' ∧ pyLowerChar m2 = 'm' ∧ pyLowerChar e = 'e' then
      match tail with
      | c :: rest =>
        if pyIsSpace c then rest.dropWhile pyIsSpace
        else if c = '.' then rest.dropWhile pyIsSpace
        else s
      | [] => s
    else if pyLowerChar m1 = 'm' ∧ pyLowerChar m2 = 'r' then
      if pyIsSpace e then tail.dropWhile pyIsSpace
      else if e = '.' then tail.dropWhile pyIsSpace
      else s
    else s
  | m1 :: m2 :: tail =>
    if pyLowerChar m1 = 'm' ∧ pyLowerChar m2 = 'r' then
      match tail with
      | c :: rest =>
        if pyIsSpace c then rest.dropWhile pyIsSpace
        else if c = '.' then rest.dropWhile pyIsSpace
        else s
      | [] => s
    else s
  | _ => s

/-- Splits at the first comma: Python `s.split(",", 1)` (which always yields
two parts when a comma is present). -/
def splitComma1 : Str → Str × Str
  | [] => ([], [])
  | c :: rest =>
    if c = ',' then ([], rest)
    else
      let p := splitComma1 rest
      (c :: p.1, p.2)

/-- `normalize_member_name` from `normalizer.py`: flips a
`"Lastname, Firstname"` input to `"Firstname Lastname"`, then lowercases,
strips accents, keeps only `[a-z ]`, collapses whitespace and trims. -/
def normalize_member_name (name : Str) : Str :=
  if name = [] then []
  else
    let name := if ',' ∈ name then
      let p := splitComma1 name
      pyStrip p.2 ++ ' ' :: pyStrip p.1
    else name
    pyStrip (collapseWS (filterAlpha (strip_accents (pyLower name))))

/-- `extract_last_name` from `normalizer.py`: the final whitespace-delimited
token of a normalized name, or the empty string. -/
def extract_last_name (normalized : Str) : Str :=
  match (pySplitWS normalized).getLast? with
  | none => []
  | some t => t

/-- `normalize_speaker` from `normalizer.py`.  Returns the 3-tuple
`(category, normalized_name, extracted_district)`. -/
def normalize_speaker (raw : Str) : Str × Str × Option Str :=
  let category := classify_speaker raw
  if category ≠ ("person").data then (category, [], none)
  else
    let name := pyStrip raw
    let step1 : Str × Option Str :=
      match districtScan [] name with
      | some (pre, draw) => (pyStrip pre, some (normalize_member_name draw))
      | none => (name, none)
    let name := step1.1
    let district := step1.2
    let name := pyStrip (dropLeadingNums name)
    let name := pyStrip (actionScan [] name)
    let name := gluedSub name
    let name := pyStrip (honorificSub name)
    let name := pyLower name
    let name := strip_accents name
    let name := filterAlpha name
    let name := pyStrip (collapseWS name)
    (("person").data, name, district)

/-!  `legislature.py`: dates and the legislature interval table.
`load_legislatures` reads the table from a JSON file on disk (I/O outside
the matching core); the spec treats the table as an injected service, so the
model passes the loaded table as an explicit argument. -/

/-- A calendar date as `datetime.date` stores it. -/
structure PyDate where
  year : Nat
  month : Nat
  day : Nat
deriving DecidableEq

/-- Chronological comparison of dates (`datetime.date.__le__`), which on
valid dates is the lexicographic comparison of `(year, month, day)`. -/
def dateLe (a b : PyDate) : Bool :=
  a.year < b.year ∨
  (a.year = b.year ∧ (a.month < b.month ∨
    (a.month = b.month ∧ a.day ≤ b.day)))

/-- Gregorian month lengths, with the leap-year rule for February. -/
def daysInMonth (y m : Nat) : Nat :=
  if m = 2 then
    if y % 4 = 0 ∧ (y % 100 ≠ 0 ∨ y % 400 = 0) then 29 else 28
  else if m = 4 ∨ m = 6 ∨ m = 9 ∨ m = 11 then 30
  else 31

/-- Numeric value of two digit characters. -/
def twoDigits (a b : Char) : Nat := (a.toNat - 48) * 10 + (b.toNat - 48)

/-- Python `date.fromisoformat` on its core `YYYY-MM-DD` form: a 10-character
string with digits in the date positions, dashes as separators, and a valid
month/day; every other string raises `ValueError` (modelled as `none` here,
turned into the error by `date_to_legislature`). -/
def fromisoformat (s : Str) : Option PyDate :=
  match s with
  | [y1, y2, y3, y4, s1, m1, m2, s2, d1, d2] =>
    if s1 = '-' ∧ s2 = '-' ∧
       pyIsDigit y1 ∧ pyIsDigit y2 ∧ pyIsDigit y3 ∧ pyIsDigit y4 ∧
       pyIsDigit m1 ∧ pyIsDigit m2 ∧ pyIsDigit d1 ∧ pyIsDigit d2 then
      let y := twoDigits y1 y2 * 100 + twoDigits y3 y4
      let m := twoDigits m1 m2
      let d := twoDigits d1 d2
      if 1 ≤ m ∧ m ≤ 12 ∧ 1 ≤ d ∧ d ≤ daysInMonth y m then some ⟨y, m, d⟩
      else none
    else none
  | _ => none

/-- One entry of the legislature table built by `load_legislatures`. -/
structure Leg where
  legislature : Nat
  start_date : PyDate
  end_date : PyDate
deriving DecidableEq

/-- The interval scan of `date_to_legislature`: first containing interval
wins. -/
def findLeg (d : PyDate) (legs : List Leg) : Option Nat :=
  match legs with
  | [] => none
  | l :: rest =>
    if dateLe l.start_date d ∧ dateLe d l.end_date then some l.legislature
    else findLeg d rest

/-- An `event_date` value as `match_corpus` receives it: a `datetime.date`
or an ISO date string. -/
inductive EDate where
  | d (dt : PyDate)
  | s (str : Str)
deriving DecidableEq

/-- Python truthiness of an `event_date` value (a date object is always
truthy, a string is truthy when non-empty). -/
def edTruthy : EDate → Bool
  | EDate.d _ => true
  | EDate.s t => t ≠ []

/-- Zero-padded decimal rendering used by `str(datetime.date)`. -/
def natPad (width n : Nat) : Str :=
  let ds := natToStr n
  List.replicate (width - ds.length) '0' ++ ds

/-- Python `str(d)` for a `datetime.date`: `YYYY-MM-DD`. -/
def dateIso (d : PyDate) : Str :=
  natPad 4 d.year ++ '-' :: (natPad 2 d.month ++ '-' :: natPad 2 d.day)

/-- Python `str(event_date)`. -/
def edStr : EDate → Str
  | EDate.d dt => dateIso dt
  | EDate.s t => t

/-- `date_to_legislature` from `legislature.py`: an ISO string is parsed
first (raising `ValueError` on a non-ISO string, uncaught in the source),
then the legislature list is scanned for the first containing interval. -/
def date_to_legislature (event_date : EDate) (legislatures : List Leg) :
    Except PyErr (Option Nat) :=
  match event_date with
  | EDate.s t =>
    match fromisoformat t with
    | none => Except.error PyErr.valueErrorInvalidIso
    | some dt => Except.ok (findLeg dt legislatures)
  | EDate.d dt => Except.ok (findLeg dt legislatures)

/-!  `matcher.py`: lookup construction, fuzzy scoring and the cascade. -/

/-- A roster record as `_build_lookup` reads it.  Optional dict fields
(`other_names`) are `Option`; the fields read through `m.get(key, "")`
default to the empty string upstream and are modelled as plain strings. -/
structure Member where
  full_name : Str
  other_names : Option Str
  party_id : Str
  gender : Str
  district_id : Str
  legislature_id : Str
deriving DecidableEq

/-- The per-member info dict built by `_build_lookup`. -/
structure Info where
  full_name : Str
  full_name_norm : Str
  last_name_norm : Str
  party_id : Str
  gender : Str
  district_id : Str
deriving DecidableEq

/-- The four lookup structures `_build_lookup` returns. -/
structure Lookup where
  full_name_index : List (Str × Info)
  other_names_index : List (Str × Info)
  last_name_index : List (Str × List Info)
  all_members : List Info
deriving DecidableEq

/-- The info dict `_build_lookup` derives from one member record. -/
def memberInfo (m : Member) : Info :=
  let full_norm := normalize_member_name m.full_name
  { full_name := m.full_name
    full_name_norm := full_norm
    last_name_norm := extract_last_name full_norm
    party_id := m.party_id
    gender := m.gender
    district_id := m.district_id }

/-- The alternate names of a member: `other_names` split on `;`, trimmed,
empty entries dropped — guarded by the truthiness test
`if other_names_raw and str(other_names_raw).strip():`. -/
def altNames (m : Member) : List Str :=
  match m.other_names with
  | none => []
  | some raw =>
    if raw ≠ [] ∧ pyStrip raw ≠ [] then
      ((pySplitOn ';' raw).map pyStrip).filter (fun a => a ≠ [])
    else []

/-- `_build_lookup` from `matcher.py`: filters the roster to one legislature
(string-comparing legislature ids) and builds the full-name, alternate-name
and last-name indexes plus the member list, in roster order.  The source
memoizes the result per legislature in `match_corpus`; the cache is a pure
memo of this function and is not modelled separately. -/
def build_lookup (members : List Member) (legislature : Nat) : Lookup :=
  let legStr := natToStr legislature
  members.foldl
    (fun acc m =>
      if m.legislature_id ≠ legStr then acc
      else
        let info := memberInfo m
        { full_name_index := dictInsert acc.full_name_index info.full_name_norm info
          other_names_index :=
            (altNames m).foldl
              (fun d alt => dictInsert d (normalize_member_name alt) info)
              acc.other_names_index
          last_name_index := dictAppend acc.last_name_index info.last_name_norm info
          all_members := acc.all_members ++ [info] })
    ⟨[], [], [], []⟩

/-- Fueled worker for `lcsLen`; every step consumes at least one character
from one of the lists, so fuel `len1 + len2` always suffices. -/
def lcsLenGo : Nat → List Char → List Char → Nat
  | 0, _, _ => 0
  | _ + 1, [], _ => 0
  | _ + 1, _ :: _, [] => 0
  | fuel + 1, a :: as, b :: bs =>
    if a = b then lcsLenGo fuel as bs + 1
    else max (lcsLenGo fuel (a :: as) bs) (lcsLenGo fuel as (b :: bs))

/-- Length of a longest common subsequence, the similarity kernel underlying
the `rapidfuzz` normalized InDel ratio. -/
def lcsLen (s t : List Char) : Nat := lcsLenGo (s.length + t.length) s t

/-- `rapidfuzz.fuzz.ratio`: normalized InDel similarity on a 0-100 scale,
`100·(len1+len2-dist)/(len1+len2)` with `dist = len1+len2-2·LCS`; two empty
strings score 100. -/
def fuzz_ratio (s t : Str) : ℚ :=
  if s.length + t.length = 0 then 100
  else (200 * lcsLen s t : ℚ) / (s.length + t.length : ℚ)

/-- `rapidfuzz.fuzz.token_sort_ratio`: `fuzz.ratio` of the two strings with
their whitespace tokens sorted and rejoined with single spaces. -/
def token_sort_ratio (s t : Str) : ℚ :=
  fuzz_ratio
    (List.intercalate ([' ']) (List.insertionSort strLeP (pySplitWS s)))
    (List.intercalate ([' ']) (List.insertionSort strLeP (pySplitWS t)))

/-- All windows of length `n` of a string (the alignments considered by an
optimal-alignment score). -/
def windows (n : Nat) (s : Str) : List Str :=
  match s with
  | [] => [[]]
  | _ :: rest => s.take n :: windows n rest

/-- `rapidfuzz.fuzz.partial_ratio`, modelled per its documentation: the best
`fuzz.ratio` between the shorter string and the alignments (length-matching
windows) of it inside the longer string. -/
def opt_align_ratio (s t : Str) : ℚ :=
  let short := if s.length ≤ t.length then s else t
  let long := if s.length ≤ t.length then t else s
  (windows short.length long).foldl (fun best w => max best (fuzz_ratio short w)) 0

/-- `_fuzzy_score_full` from `matcher.py`:
`0.6 * token_sort_ratio + 0.4 * ratio`. -/
def fuzzy_score_full (speaker_norm candidate_norm : Str) : ℚ :=
  let s1 := token_sort_ratio speaker_norm candidate_norm
  let s2 := fuzz_ratio speaker_norm candidate_norm
  0.6 * s1 + 0.4 * s2

/-- `_fuzzy_score_last` from `matcher.py`:
`0.5 * partial_ratio + 0.3 * token_sort_ratio + 0.2 * ratio`. -/
def fuzzy_score_last (speaker_norm candidate_last : Str) : ℚ :=
  let s1 := opt_align_ratio speaker_norm candidate_last
  let s2 := token_sort_ratio speaker_norm candidate_last
  let s3 := fuzz_ratio speaker_norm candidate_last
  0.5 * s1 + 0.3 * s2 + 0.2 * s3

/-- A match outcome dict (`matched_name`, `party_id`, `gender`,
`district_id`, `match_level`, `match_score`); `None` values are `none`. -/
structure MatchRes where
  matched_name : Option Str
  party_id : Option Str
  gender : Option Str
  district_id : Option Str
  match_level : Str
  match_score : Option ℚ
deriving DecidableEq

/-- The `no_match` dict of `match_speaker_atomic`. -/
def no_match_result : MatchRes :=
  { matched_name := none, party_id := none, gender := none, district_id := none
    match_level := ("unmatched").data, match_score := none }

/-- `_make_result` from `matcher.py`. -/
def make_result (info : Info) (match_level : Str) (match_score : ℚ) : MatchRes :=
  { matched_name := some info.full_name
    party_id := some info.party_id
    gender := some info.gender
    district_id := some info.district_id
    match_level := match_level
    match_score := some match_score }

/-- Python `values.pop() if len(set(values)) == 1 else None`: the unique
value of a list when it has exactly one distinct element. -/
def consensusOf (vals : List Str) : Option Str :=
  match listDedup vals with
  | [p] => some p
  | _ => none

/-- `_make_ambiguous_result` from `matcher.py`: consensus party/gender over
the candidates' truthy (non-empty) values, district always `None`, and the
candidates' display names sorted and joined with `"; "`. -/
def make_ambiguous_result (candidates : List Info) (match_score : ℚ) : MatchRes :=
  let consensus_party :=
    consensusOf ((candidates.filter (fun c => c.party_id ≠ [])).map Info.party_id)
  let consensus_gender :=
    consensusOf ((candidates.filter (fun c => c.gender ≠ [])).map Info.gender)
  let names := List.insertionSort strLeP (candidates.map Info.full_name)
  { matched_name := some (joinSemi names)
    party_id := consensus_party
    gender := consensus_gender
    district_id := none
    match_level := ("ambiguous").data
    match_score := some match_score }

/-- The fuzzy level (Level 2) of `match_speaker_atomic`: best-score scan
with strict improvement (first encountered member wins ties), threshold
test, and for single-token names the near-tie re-scan deduplicated by
display name through a dict comprehension (first-occurrence position, last
value wins). -/
def fuzzy_stage (speaker_norm : Str) (speaker_tokens : List Str)
    (lookup : Lookup) (fuzzy_threshold : ℚ) : MatchRes × Option (List Info) :=
  let best :=
    lookup.all_members.foldl
      (fun (acc : ℚ × Option Info) member =>
        let score :=
          if speaker_tokens.length = 1 then
            fuzzy_score_last speaker_norm member.last_name_norm
          else fuzzy_score_full speaker_norm member.full_name_norm
        if acc.1 < score then (score, some member) else acc)
      (0, none)
  match best.2 with
  | some best_info =>
    if fuzzy_threshold ≤ best.1 then
      if speaker_tokens.length = 1 then
        let close_matches :=
          lookup.all_members.filter
            (fun m => decide (fuzzy_threshold ≤ fuzzy_score_last speaker_norm m.last_name_norm))
        let unique_matches :=
          (close_matches.foldl (fun d m => dictInsert d m.full_name m) []).map Prod.snd
        if 1 < unique_matches.length then
          (make_ambiguous_result unique_matches best.1, some unique_matches)
        else (make_result best_info (("fuzzy").data) best.1, none)
      else (make_result best_info (("fuzzy").data) best.1, none)
    else (no_match_result, none)
  | none => (no_match_result, none)

/-- `match_speaker_atomic` from `matcher.py`: the deterministic cascade
(full name, alternate name, single-token last name) followed by the fuzzy
level.  Returns the outcome and the candidate list (populated only when
ambiguity is detected). -/
def match_speaker_atomic (speaker_norm : Str) (lookup : Lookup)
    (fuzzy_threshold : ℚ) : MatchRes × Option (List Info) :=
  if speaker_norm = [] then (no_match_result, none)
  else
    match dictLookup lookup.full_name_index speaker_norm with
    | some info => (make_result info (("deterministic").data) 100, none)
    | none =>
      match dictLookup lookup.other_names_index speaker_norm with
      | some info => (make_result info (("deterministic").data) 100, none)
      | none =>
        match pySplitWS speaker_norm with
        | [last] =>
          (match dictLookup lookup.last_name_index last with
           | some [c] => (make_result c (("deterministic").data) 100, none)
           | some (c1 :: c2 :: cs) =>
             (make_ambiguous_result (c1 :: c2 :: cs) 100, some (c1 :: c2 :: cs))
           | some [] => (make_ambiguous_result [] 100, some [])
           | none => fuzzy_stage speaker_norm (pySplitWS speaker_norm) lookup fuzzy_threshold)
        | _ => fuzzy_stage speaker_norm (pySplitWS speaker_norm) lookup fuzzy_threshold

/-!  `match_corpus`: two-phase corpus processing. -/

/-- An input corpus row, with the two fields the matcher reads
(`row.get("speaker", "")` and `row.get("event_date", "")`). -/
structure Row where
  speaker : Str
  event_date : EDate
deriving DecidableEq

/-- An output row: `result = dict(row)` (the original row copied) plus the
fields `match_corpus` adds. -/
structure OutRow where
  row : Row
  speaker_category : Str
  speaker_normalized : Str
  legislature : Option Nat
  matched_name : Option Str
  party_id : Option Str
  gender : Option Str
  district_id : Option Str
  match_level : Str
  match_score : Option ℚ
deriving DecidableEq

/-- One entry of `grouped_results[date_str]`:
`{"index": i, "result": result, "candidates": candidates}`. -/
structure Item where
  index : Nat
  result : OutRow
  candidates : Option (List Info)
deriving DecidableEq

/-- One step of the daily-roster accumulation: a row matched
`deterministic` or `fuzzy` with a truthy `matched_name` adds that name to
the roster set. -/
def rosterStep (acc : List Str) (item : Item) : List Str :=
  if item.result.match_level = ("deterministic").data ∨
     item.result.match_level = ("fuzzy").data then
    match item.result.matched_name with
    | some nm => if nm ≠ [] then setAdd acc nm else acc
    | none => acc
  else acc

/-- Step 2a of the contextual pass: the daily roster of display names
matched `deterministic` or `fuzzy` in the date group's initial outcomes
(skipping falsy `matched_name` values). -/
def dailyRoster (items : List Item) : List Str :=
  items.foldl rosterStep []

/-- Step 2b of the contextual pass for one row: an `ambiguous` outcome with
a truthy candidate list is rewritten to the unique candidate found in the
daily roster (fields copied from that member, level `contextual`, score 99)
and is left unchanged otherwise. -/
def resolveItem (roster : List Str) (item : Item) : Item :=
  if item.result.match_level = ("ambiguous").data then
    match item.candidates with
    | some cands =>
      if cands ≠ [] then
        match cands.filter (fun c => decide (c.full_name ∈ roster)) with
        | [best] =>
          { item with result :=
            { item.result with
              matched_name := some best.full_name
              party_id := some best.party_id
              gender := some best.gender
              district_id := some best.district_id
              match_level := ("contextual").data
              match_score := some 99 } }
        | _ => item
      else item
    | none => item
  else item

/-- The contextual pass over one date group: build the daily roster from
the initial outcomes, then resolve each row against it (the roster is not
recomputed as rows are rewritten). -/
def contextualGroup (items : List Item) : List Item :=
  items.map (resolveItem (dailyRoster items))

/-- Phase 1 of `match_corpus` for one row, returning the grouping key
`date_str` and the grouped entry.  The statement
`category, speaker_norm = normalize_speaker(speaker_raw)` unpacks the
3-tuple returned by `normalize_speaker` into two variables, so it raises
`ValueError`; the code after it is translated faithfully but is
unreachable. -/
def processRow (legislatures : List Leg) (members : List Member)
    (fuzzy_threshold : ℚ) (i : Nat) (row : Row) : Except PyErr (Str × Item) := do
  let date_str := if edTruthy row.event_date then edStr row.event_date else ("unknown").data
  let leg ← date_to_legislature row.event_date legislatures
  let t := normalize_speaker row.speaker
  let cs ← unpack2of3 t
  let category := cs.1
  let speaker_norm := cs.2
  let base : OutRow :=
    { row := row
      speaker_category := category
      speaker_normalized := speaker_norm
      legislature := leg
      matched_name := none, party_id := none, gender := none, district_id := none
      match_level := ("unmatched").data, match_score := none }
  let rc : OutRow × Option (List Info) :=
    match leg with
    | some l =>
      if category = ("person").data then
        let lookup := build_lookup members l
        let mr := match_speaker_atomic speaker_norm lookup fuzzy_threshold
        ({ base with
            matched_name := mr.1.matched_name
            party_id := mr.1.party_id
            gender := mr.1.gender
            district_id := mr.1.district_id
            match_level := mr.1.match_level
            match_score := mr.1.match_score }, mr.2)
      else ({ base with match_level := category }, none)
    | none =>
      if category = ("person").data then (base, none)
      else ({ base with match_level := category }, none)
  Except.ok (date_str, { index := i, result := rc.1, candidates := rc.2 })

/-- Phase 1 over the whole corpus, in row order with running indices. -/
def phase1 (legislatures : List Leg) (members : List Member)
    (fuzzy_threshold : ℚ) : Nat → List Row → Except PyErr (List (Str × Item))
  | _, [] => Except.ok []
  | i, r :: rs => do
    let it ← processRow legislatures members fuzzy_threshold i r
    let rest ← phase1 legislatures members fuzzy_threshold (i + 1) rs
    Except.ok (it :: rest)

/-- `grouped_results`: insertion-ordered grouping of phase-1 entries by
their `date_str`. -/
def groupByDate (pairs : List (Str × Item)) : List (Str × List Item) :=
  pairs.foldl (fun acc p => dictAppend acc p.1 p.2) []

/-- `match_corpus` from `matcher.py` (the legislature table, read from disk
by `load_legislatures` outside the core, is passed in): phase 1 matches and
groups every row by date, phase 2 resolves ambiguities per date group and
places every result at its original index in `final_results_sorted`. -/
def match_corpus (corpus_rows : List Row) (members : List Member)
    (fuzzy_threshold : ℚ) (legislatures : List Leg) :
    Except PyErr (List (Option OutRow)) := do
  let pairs ← phase1 legislatures members fuzzy_threshold 0 corpus_rows
  let grouped := groupByDate pairs
  let n := corpus_rows.length
  Except.ok
    (grouped.foldl
      (fun acc g =>
        (contextualGroup g.2).foldl
          (fun a it => a.set it.index (some it.result)) acc)
      (List.replicate n none))

/-!  Definitions following the spec's words only, for comparison with the
source (the source builds no district index and `match_speaker_atomic`
accepts no district hint). -/

/-- Follows the spec's words for the district index of section 4.3 ("if a
district is present, normalize it and append to the district index bucket"),
over the same per-legislature filtered roster as `_build_lookup`; the
source's `_build_lookup` builds no such index. -/
def spec_district_index (members : List Member) (legislature : Nat) :
    List (Str × List Info) :=
  let legStr := natToStr legislature
  members.foldl
    (fun d m =>
      if m.legislature_id ≠ legStr then d
      else if m.district_id ≠ [] then
        dictAppend d (normalize_member_name m.district_id) (memberInfo m)
      else d)
    []

/-- Follows the spec's words for the ambiguous `matched_name` ("the
candidates' display names, deduplicated, sorted lexicographically, and
joined with `\x22; \x22`"); the source's `_make_ambiguous_result` does not
deduplicate. -/
def spec_matched_name (candidates : List Info) : Str :=
  joinSemi (List.insertionSort strLeP (listDedup (candidates.map Info.full_name)))

/-!  Concrete data used by the claim witnesses and counterexamples. -/

/-- Legislature table with a single interval covering 2020-2021. -/
def legsW : List Leg := [⟨1, ⟨2020, 1, 1⟩, ⟨2021, 12, 31⟩⟩]

/-- A row whose `event_date` string is not ISO format. -/
def rowBadDate : Row := ⟨("M. Arcand").data, EDate.s (("not-a-date").data)⟩

/-- A row with a valid date outside every legislature of `legsW`. -/
def rowOldDate : Row := ⟨("M. Arcand").data, EDate.s (("1800-01-01").data)⟩

/-- A row with a valid date inside legislature 1 of `legsW`. -/
def rowGoodDate : Row := ⟨("M. Arcand").data, EDate.s (("2020-06-15").data)⟩

/-- Roster member in district Dorval, the only member of that district. -/
def mAnnRoy : Member :=
  { full_name := ("Ann Roy").data, other_names := none, party_id := ("P1").data
    gender := ("F").data, district_id := ("Dorval").data, legislature_id := ("1").data }

/-- Roster member whose full name collides with the test speaker string. -/
def mJohnSmith : Member :=
  { full_name := ("John Smith").data, other_names := none, party_id := ("P2").data
    gender := ("M").data, district_id := ("Laval").data, legislature_id := ("1").data }

/-- Roster member whose full name is the single token `Smith`. -/
def mSmithOnly : Member :=
  { full_name := ("Smith").data, other_names := none, party_id := ("P3").data
    gender := ("F").data, district_id := ("Hull").data, legislature_id := ("1").data }

/-- Roster member `Jean Roy` (shares the last name `roy` with `Paul Roy`). -/
def mJeanRoy : Member :=
  { full_name := ("Jean Roy").data, other_names := none, party_id := ("P4").data
    gender := ("M").data, district_id := ("Anjou").data, legislature_id := ("1").data }

/-- Roster member `Paul Roy` (shares the last name `roy` with `Jean Roy`). -/
def mPaulRoy : Member :=
  { full_name := ("Paul Roy").data, other_names := none, party_id := ("P5").data
    gender := ("M").data, district_id := ("Viau").data, legislature_id := ("1").data }

/-- Candidate info with display name `a b` and party `A`. -/
def iDupA : Info :=
  ⟨("a b").data, ("a b").data, ("b").data, ("A").data, ("f").data, ("d1").data⟩

/-- Candidate info with the same display name `a b` and an empty party
(a duplicate roster entry, as a last-name bucket can contain). -/
def iDupB : Info :=
  ⟨("a b").data, ("a b").data, ("b").data, [], ("f").data, ("d2").data⟩

/-- Candidate list containing a duplicated display name and two distinct
`party_id` values (`"A"` and the empty string). -/
def csDup : List Info := [iDupA, iDupB]

/-- Candidate `Mathieu Levesque` for the contextual-pass witness. -/
def iMat : Info :=
  ⟨("Mathieu Levesque").data, ("mathieu levesque").data, ("levesque").data,
   ("CAQ").data, ("M").data, ("X").data⟩

/-- Candidate `Sylvain Levesque` for the contextual-pass witness. -/
def iSyl : Info :=
  ⟨("Sylvain Levesque").data, ("sylvain levesque").data, ("levesque").data,
   ("CAQ").data, ("M").data, ("Y").data⟩

/-- A date-group row already matched deterministically to
`Sylvain Levesque`. -/
def itemDet : Item :=
  { index := 0
    result :=
      { row := ⟨("Sylvain Lévesque").data, EDate.s (("2020-06-15").data)⟩
        speaker_category := ("person").data
        speaker_normalized := ("sylvain levesque").data
        legislature := some 1
        matched_name := some (("Sylvain Levesque").data)
        party_id := some (("CAQ").data)
        gender := some (("M").data)
        district_id := some (("Y").data)
        match_level := ("deterministic").data
        match_score := some 100 }
    candidates := none }

/-- A date-group row with an ambiguous outcome over the two Levesque
candidates. -/
def itemAmb : Item :=
  { index := 1
    result :=
      { row := ⟨("M. Lévesque").data, EDate.s (("2020-06-15").data)⟩
        speaker_category := ("person").data
        speaker_normalized := ("levesque").data
        legislature := some 1
        matched_name := some (("Mathieu Levesque; Sylvain Levesque").data)
        party_id := some (("CAQ").data)
        gender := some (("M").data)
        district_id := none
        match_level := ("ambiguous").data
        match_score := some 100 }
    candidates := some [iMat, iSyl] }

/-- The date group used by the contextual-pass witness. -/
def itemsW : List Item := [itemDet, itemAmb]

/-- The ambiguous row after contextual resolution to `Sylvain Levesque`. -/
def itemAmbResolved : Item :=
  { itemAmb with result :=
    { itemAmb.result with
      matched_name := some iSyl.full_name
      party_id := some iSyl.party_id
      gender := some iSyl.gender
      district_id := some iSyl.district_id
      match_level := ("contextual").data
      match_score := some 99 } }

/-- Whether a character is a lowercase ASCII letter or a space (the alphabet
of a normalized name). -/
def isAzSpB (c : Char) : Bool := (97 ≤ c.toNat ∧ c.toNat ≤ 122) ∨ c = ' '

/-- Whether a string is free of adjacent double spaces. -/
def noTwoSpaces : Str → Bool
  | [] => true
  | [_] => true
  | a :: b :: rest => if a = ' ' ∧ b = ' ' then false else noTwoSpaces (b :: rest)

/-- The normal form asserted by the spec for normalized person names: only
lowercase Latin letters and spaces, single space separators, no leading or
trailing whitespace. -/
def canonName (s : Str) : Bool :=
  s.all isAzSpB && noTwoSpaces s &&
    (s.head? ≠ some ' ' : Bool) && (s.getLast? ≠ some ' ' : Bool)

/-!  Claim theorems. -/

/-- C4 (code bug): the claim says an unparseable or out-of-range
`event_date` must not raise and must yield an absent legislature with an
`unmatched` outcome.  The code raises instead: an unparseable date string
raises `ValueError` inside `date.fromisoformat` (no handler in
`match_corpus`), and a valid out-of-range date reaches the 3-into-2 tuple
unpacking of `normalize_speaker`'s result, which raises `ValueError` as
well. -/
theorem c4_out_of_range_raises :
    match_corpus [rowBadDate] [] 85 legsW = Except.error PyErr.valueErrorInvalidIso ∧
    match_corpus [rowOldDate] [] 85 legsW = Except.error PyErr.valueErrorUnpack :=
  ⟨rfl, rfl⟩

/-- C8 (code bug): the claim says `match_corpus` returns one output row per
input row in the original order.  On any non-empty corpus — here a single
row with a valid in-range date — `match_corpus` raises `ValueError` at the
statement `category, speaker_norm = normalize_speaker(speaker_raw)` (a
3-tuple unpacked into two variables) and returns nothing. -/
theorem c8_no_output_rows :
    match_corpus [rowGoodDate] [mAnnRoy] 85 legsW = Except.error PyErr.valueErrorUnpack :=
  rfl

/-- C2 counterexample: the speaker string `John Smith, Dorval` yields the
district hint `dorval`, whose spec-built district index entry holds exactly
one member (`Ann Roy`); the claim then requires a deterministic outcome for
`Ann Roy`, but the cascade — which accepts no district hint at all — returns
`John Smith` via the full-name index. -/
theorem c2_counterexample :
    normalize_speaker (("John Smith, Dorval").data)
      = (("person").data, ("john smith").data, some (("dorval").data)) ∧
    dictLookup (spec_district_index [mAnnRoy, mJohnSmith] 1) (("dorval").data)
      = some [memberInfo mAnnRoy] ∧
    (match_speaker_atomic (("john smith").data) (build_lookup [mAnnRoy, mJohnSmith] 1) 85).1.matched_name
      = some (("John Smith").data) ∧
    ("John Smith").data ≠ ("Ann Roy").data := by
  decide

/-- C3 counterexample: `a b` is a multi-token speaker name and a literal
substring of the member name `a bc`, so the claim fixes the score at 95; the
code computes the weighted formula instead, giving `600/7 ≈ 85.7`. -/
theorem c3_counterexample :
    2 ≤ (pySplitWS (("a b").data)).length ∧
    strIn (("a b").data) (("a bc").data) = true ∧
    fuzzy_score_full (("a b").data) (("a bc").data) ≠ 95 := by
  refine ⟨by decide, by decide, ?_⟩
  have hs : List.insertionSort strLeP (pySplitWS (("a b").data))
      = [("a").data, ("b").data] := by decide
  have ht : List.insertionSort strLeP (pySplitWS (("a bc").data))
      = [("a").data, ("bc").data] := by decide
  have hj1 : List.intercalate ([' ']) [("a").data, ("b").data] = ("a b").data := by decide
  have hj2 : List.intercalate ([' ']) [("a").data, ("bc").data] = ("a bc").data := by decide
  have hl : lcsLen (("a b").data) (("a bc").data) = 3 := by decide
  have h1 : (("a b").data).length = 3 := by decide
  have h2 : (("a bc").data).length = 4 := by decide
  unfold fuzzy_score_full token_sort_ratio
  rw [hs, ht, hj1, hj2]
  unfold fuzz_ratio
  rw [hl, h1, h2]
  norm_num

/-- C5 counterexample: `smith` is a single-token name whose last-name bucket
holds two members, so the claim requires an ambiguous outcome over the
bucket; but `smith` is also a key of the full-name index (the member whose
full name is just `Smith`), and that earlier cascade rule wins with a
deterministic outcome and no candidate set. -/
theorem c5_counterexample :
    pySplitWS (("smith").data) = [("smith").data] ∧
    dictLookup (build_lookup [mSmithOnly, mJohnSmith] 1).last_name_index (("smith").data)
      = some [memberInfo mSmithOnly, memberInfo mJohnSmith] ∧
    (match_speaker_atomic (("smith").data) (build_lookup [mSmithOnly, mJohnSmith] 1) 85).1.match_level
      = ("deterministic").data ∧
    (match_speaker_atomic (("smith").data) (build_lookup [mSmithOnly, mJohnSmith] 1) 85).2
      = none := by
  decide

/-- C6 counterexample: a candidate set with a duplicated display name and
party values `A` and empty.  The claim requires the deduplicated joined name
`a b` and an absent party (two distinct values exist across the members);
the code returns the non-deduplicated `a b; a b` and party `A` (the empty
value is dropped by the truthiness filter before the consensus test). -/
theorem c6_counterexample :
    (make_ambiguous_result csDup 100).matched_name = some (("a b; a b").data) ∧
    spec_matched_name csDup = ("a b").data ∧
    (make_ambiguous_result csDup 100).matched_name ≠ some (spec_matched_name csDup) ∧
    (make_ambiguous_result csDup 100).party_id = some (("A").data) ∧
    (listDedup (csDup.map Info.party_id)).length = 2 := by
  decide

/-- C2 (amended): the matching cascade accepts no district hint and no
district index exists; the first cascade rule is the exact full-name lookup,
which returns that member deterministically with score 100 and no candidate
set for every non-empty speaker name that is a key of the full-name
index. -/
theorem c2_amended (s : Str) (lookup : Lookup) (θ : ℚ) (info : Info)
    (hs : s ≠ []) (h : dictLookup lookup.full_name_index s = some info) :
    match_speaker_atomic s lookup θ
      = (make_result info (("deterministic").data) 100, none) := by
  simp only [match_speaker_atomic, if_neg hs, h]

/-- Witness for `c2_amended` at the concrete speaker `ann roy` against the
two-member roster. -/
theorem c2_witness :
    match_speaker_atomic (("ann roy").data) (build_lookup [mAnnRoy, mJohnSmith] 1) 85
      = (make_result (memberInfo mAnnRoy) (("deterministic").data) 100, none) :=
  c2_amended (("ann roy").data) (build_lookup [mAnnRoy, mJohnSmith] 1) 85
    (memberInfo mAnnRoy) (by decide) (by decide)

/-- C5 (amended): for every single-token speaker name that is a key of the
last-name index and is a key of neither the full-name index nor the
alternate-name index (those earlier cascade rules win otherwise): a
one-member bucket yields that member deterministically with score 100 and no
candidate set, and a bucket of two or more members yields the consensus
ambiguous outcome with score 100 and the full bucket as the candidate
set. -/
theorem c5_amended (s : Str) (lookup : Lookup) (θ : ℚ) (bucket : List Info)
    (htok : pySplitWS s = [s])
    (h1 : dictLookup lookup.full_name_index s = none)
    (h2 : dictLookup lookup.other_names_index s = none)
    (h3 : dictLookup lookup.last_name_index s = some bucket) :
    (∀ c, bucket = [c] →
      match_speaker_atomic s lookup θ
        = (make_result c (("deterministic").data) 100, none)) ∧
    (2 ≤ bucket.length →
      match_speaker_atomic s lookup θ
        = (make_ambiguous_result bucket 100, some bucket)) := by
  have hs : s ≠ [] := by
    intro he
    rw [he] at htok
    simp [pySplitWS, splitWSAux] at htok
  constructor
  · intro c hc
    subst hc
    simp only [match_speaker_atomic, if_neg hs, h1, h2, htok, h3]
  · intro hlen
    rcases bucket with _ | ⟨c1, _ | ⟨c2, cs⟩⟩
    · exact absurd hlen (by norm_num)
    · exact absurd hlen (by norm_num)
    · simp only [match_speaker_atomic, if_neg hs, h1, h2, htok, h3]

/-- Witness for `c5_amended` at the concrete single-token speaker `roy`
against the two members sharing that last name. -/
theorem c5_witness :
    match_speaker_atomic (("roy").data) (build_lookup [mJeanRoy, mPaulRoy] 1) 85
      = (make_ambiguous_result [memberInfo mJeanRoy, memberInfo mPaulRoy] 100,
         some [memberInfo mJeanRoy, memberInfo mPaulRoy]) :=
  (c5_amended (("roy").data) (build_lookup [mJeanRoy, mPaulRoy] 1) 85
      [memberInfo mJeanRoy, memberInfo mPaulRoy]
      (by decide) (by decide) (by decide) (by decide)).2 (by decide)

/-- C3 (amended): for every multi-token speaker name and every member, the
fuzzy full-name score equals 0.6 times the token-sort similarity plus 0.4
times the plain similarity of the normalized strings — including when the
speaker string is a literal substring of the member's name: the code has no
fixed-95 substring case. -/
theorem c3_amended (s t : Str) (_h : 2 ≤ (pySplitWS s).length) :
    fuzzy_score_full s t = 0.6 * token_sort_ratio s t + 0.4 * fuzz_ratio s t := rfl

/-- Witness for `c3_amended` at the concrete pair `a b` / `c d`. -/
theorem c3_witness :
    2 ≤ (pySplitWS (("a b").data)).length ∧
    fuzzy_score_full (("a b").data) (("c d").data)
      = 0.6 * token_sort_ratio (("a b").data) (("c d").data)
        + 0.4 * fuzz_ratio (("a b").data) (("c d").data) :=
  ⟨by decide, c3_amended (("a b").data) (("c d").data) (by decide)⟩

/-!  Order lemmas for the sorting relation and set lemmas for `listDedup`. -/

theorem strLeB_total (a b : Str) : strLeB a b = true ∨ strLeB b a = true := by
  induction a generalizing b with
  | nil => left; rfl
  | cons x xs ih =>
    cases b with
    | nil => right; rfl
    | cons y ys =>
      simp only [strLeB]
      rcases Nat.lt_trichotomy x.toNat y.toNat with h | h | h
      · left; rw [if_pos h]
      · rw [if_neg (by omega), if_neg (by omega), if_neg (by omega), if_neg (by omega)]
        exact ih ys
      · right; rw [if_pos h]

theorem strLeB_trans (a b c : Str) (h1 : strLeB a b = true) (h2 : strLeB b c = true) :
    strLeB a c = true := by
  induction a generalizing b c with
  | nil => rfl
  | cons x xs ih =>
    cases b with
    | nil => exact absurd h1 (by simp [strLeB])
    | cons y ys =>
      cases c with
      | nil => exact absurd h2 (by simp [strLeB])
      | cons z zs =>
        simp only [strLeB] at h1 h2 ⊢
        rcases Nat.lt_trichotomy x.toNat y.toNat with hxy | hxy | hxy
        · rcases Nat.lt_trichotomy y.toNat z.toNat with hyz | hyz | hyz
          · rw [if_pos (by omega)]
          · rw [if_pos (by omega)]
          · rw [if_neg (by omega), if_pos hyz] at h2
            exact absurd h2 (by simp)
        · rw [if_neg (by omega), if_neg (by omega)] at h1
          rcases Nat.lt_trichotomy y.toNat z.toNat with hyz | hyz | hyz
          · rw [if_pos (by omega)]
          · rw [if_neg (by omega), if_neg (by omega)] at h2
            rw [if_neg (by omega), if_neg (by omega)]
            exact ih ys zs h1 h2
          · rw [if_neg (by omega), if_pos hyz] at h2
            exact absurd h2 (by simp)
        · rw [if_neg (by omega), if_pos hxy] at h1
          exact absurd h1 (by simp)

instance : IsTotal Str strLeP := ⟨strLeB_total⟩

instance : IsTrans Str strLeP := ⟨fun a b c => strLeB_trans a b c⟩

theorem mem_listDedup {x : Str} : ∀ {l : List Str}, x ∈ listDedup l ↔ x ∈ l := by
  intro l
  induction l with
  | nil => simp [listDedup]
  | cons y rest ih =>
    by_cases hy : y ∈ rest
    · rw [listDedup, if_pos hy]
      constructor
      · intro h; exact List.mem_cons_of_mem _ (ih.mp h)
      · intro h
        rcases List.mem_cons.mp h with h | h
        · exact ih.mpr (h ▸ hy)
        · exact ih.mpr h
    · rw [listDedup, if_neg hy]
      constructor
      · intro h
        rcases List.mem_cons.mp h with h | h
        · exact h ▸ List.mem_cons_self _ _
        · exact List.mem_cons_of_mem _ (ih.mp h)
      · intro h
        rcases List.mem_cons.mp h with h | h
        · exact h ▸ List.mem_cons_self _ _
        · exact List.mem_cons_of_mem _ (ih.mpr h)

theorem listDedup_eq_nil {l : List Str} : listDedup l = [] ↔ l = [] := by
  induction l with
  | nil => simp [listDedup]
  | cons y rest ih =>
    rw [listDedup]
    by_cases hy : y ∈ rest
    · rw [if_pos hy]
      constructor
      · intro h
        have hr : rest = [] := ih.mp h
        subst hr
        exact absurd hy (List.not_mem_nil y)
      · intro h
        exact absurd h (by simp)
    · rw [if_neg hy]
      simp

theorem listDedup_eq_singleton_iff (l : List Str) (p : Str) :
    listDedup l = [p] ↔ p ∈ l ∧ ∀ q ∈ l, q = p := by
  induction l with
  | nil => simp [listDedup]
  | cons y rest ih =>
    by_cases hy : y ∈ rest
    · rw [listDedup, if_pos hy, ih]
      constructor
      · rintro ⟨hp, hall⟩
        refine ⟨List.mem_cons_of_mem _ hp, fun q hq => ?_⟩
        rcases List.mem_cons.mp hq with h | h
        · exact h ▸ hall y hy
        · exact hall q h
      · rintro ⟨hp, hall⟩
        refine ⟨?_, fun q hq => hall q (List.mem_cons_of_mem _ hq)⟩
        rcases List.mem_cons.mp hp with h | h
        · exact h ▸ hy
        · exact h
    · rw [listDedup, if_neg hy]
      constructor
      · intro h
        have hcons := List.cons_eq_cons.mp h
        have hrest : rest = [] := listDedup_eq_nil.mp hcons.2
        subst hrest
        refine ⟨by simp [hcons.1], fun q hq => ?_⟩
        simp at hq
        simp [hq, hcons.1]
      · rintro ⟨hp, hall⟩
        have hyp : y = p := hall y (List.mem_cons_self _ _)
        have hrest : rest = [] := by
          cases rest with
          | nil => rfl
          | cons a as =>
            have ha : a = p := hall a (by simp)
            exact absurd (by rw [hyp, ← ha]; exact List.mem_cons_self _ _ : y ∈ a :: as) hy
        subst hrest
        simp [listDedup, hyp]

theorem consensusOf_eq_some (vals : List Str) (p : Str) :
    consensusOf vals = some p ↔ p ∈ vals ∧ ∀ q ∈ vals, q = p := by
  rw [← listDedup_eq_singleton_iff]
  unfold consensusOf
  rcases hd : listDedup vals with _ | ⟨a, _ | ⟨b, l⟩⟩ <;> simp

theorem consensus_field_iff (cs : List Info) (f : Info → Str) (p : Str) :
    (p ∈ (cs.filter fun c => decide (f c ≠ [])).map f ∧
      ∀ q ∈ (cs.filter fun c => decide (f c ≠ [])).map f, q = p) ↔
    (p ≠ [] ∧ (∃ c ∈ cs, f c = p) ∧ ∀ c ∈ cs, f c ≠ [] → f c = p) := by
  simp only [List.mem_map, List.mem_filter, decide_eq_true_eq]
  constructor
  · rintro ⟨⟨c, ⟨hc, hne⟩, hfc⟩, hall⟩
    exact ⟨hfc ▸ hne, ⟨c, hc, hfc⟩,
      fun d hd hdne => hall (f d) ⟨d, ⟨hd, hdne⟩, rfl⟩⟩
  · rintro ⟨hne, ⟨c, hc, hfc⟩, hall⟩
    refine ⟨⟨c, ⟨hc, hfc ▸ hne⟩, hfc⟩, ?_⟩
    rintro q ⟨d, ⟨hd, hdne⟩, hfd⟩
    exact hfd ▸ hall d hd hdne

/-- C6 (amended): for every candidate set, the ambiguous outcome has level
`ambiguous` with the given score; `party_id` (respectively `gender`) equals
the unique value when exactly one distinct non-empty value of that field
exists across the candidates and is absent otherwise; `district_id` is
always absent; and `matched_name` is the candidates' display names sorted
lexicographically and joined with `"; "` — without deduplication. -/
theorem c6_amended (cs : List Info) (score : ℚ) :
    (make_ambiguous_result cs score).match_level = ("ambiguous").data ∧
    (make_ambiguous_result cs score).match_score = some score ∧
    (make_ambiguous_result cs score).district_id = none ∧
    (∃ ns, ns.Perm (cs.map Info.full_name) ∧ List.Sorted strLeP ns ∧
      (make_ambiguous_result cs score).matched_name = some (joinSemi ns)) ∧
    (∀ p, (make_ambiguous_result cs score).party_id = some p ↔
      (p ≠ [] ∧ (∃ c ∈ cs, c.party_id = p) ∧ ∀ c ∈ cs, c.party_id ≠ [] → c.party_id = p)) ∧
    (∀ g, (make_ambiguous_result cs score).gender = some g ↔
      (g ≠ [] ∧ (∃ c ∈ cs, c.gender = g) ∧ ∀ c ∈ cs, c.gender ≠ [] → c.gender = g)) := by
  refine ⟨rfl, rfl, rfl,
    ⟨List.insertionSort strLeP (cs.map Info.full_name),
      List.perm_insertionSort _ _, List.sorted_insertionSort _ _, rfl⟩,
    fun p => ?_, fun g => ?_⟩
  · rw [show (make_ambiguous_result cs score).party_id
        = consensusOf ((cs.filter fun c => decide (c.party_id ≠ [])).map Info.party_id) from rfl,
      consensusOf_eq_some]
    exact consensus_field_iff cs Info.party_id p
  · rw [show (make_ambiguous_result cs score).gender
        = consensusOf ((cs.filter fun c => decide (c.gender ≠ [])).map Info.gender) from rfl,
      consensusOf_eq_some]
    exact consensus_field_iff cs Info.gender g

/-!  Lemmas for the contextual pass. -/

theorem mem_setAdd {x y : Str} {s : List Str} : x ∈ setAdd s y ↔ x ∈ s ∨ x = y := by
  unfold setAdd
  by_cases h : y ∈ s
  · rw [if_pos h]
    exact ⟨Or.inl, fun h' => h'.elim id (fun e => e ▸ h)⟩
  · rw [if_neg h]
    simp

theorem rosterStep_mem (acc : List Str) (item : Item) (nm : Str) :
    nm ∈ rosterStep acc item ↔ nm ∈ acc ∨
      ((item.result.match_level = ("deterministic").data ∨
        item.result.match_level = ("fuzzy").data) ∧
       item.result.matched_name = some nm ∧ nm ≠ []) := by
  unfold rosterStep
  by_cases hl : item.result.match_level = ("deterministic").data ∨
      item.result.match_level = ("fuzzy").data
  · rw [if_pos hl]
    cases hm : item.result.matched_name with
    | none => simp [hm]
    | some v =>
      by_cases hv : v = []
      · subst hv
        simp [hm]
      · show nm ∈ (if v ≠ [] then setAdd acc v else acc) ↔ _
        rw [if_pos hv, mem_setAdd]
        simp only [hm, Option.some.injEq]
        constructor
        · rintro (h | h)
          · exact Or.inl h
          · exact Or.inr ⟨hl, h.symm, by rw [h]; exact hv⟩
        · rintro (h | ⟨_, h, _⟩)
          · exact Or.inl h
          · exact Or.inr h.symm
  · rw [if_neg hl]
    simp [hl]

theorem foldl_rosterStep_mem (items : List Item) (acc : List Str) (nm : Str) :
    nm ∈ items.foldl rosterStep acc ↔
      nm ∈ acc ∨ ∃ j ∈ items,
        (j.result.match_level = ("deterministic").data ∨
         j.result.match_level = ("fuzzy").data) ∧
        j.result.matched_name = some nm ∧ nm ≠ [] := by
  induction items generalizing acc with
  | nil => simp
  | cons it rest ih =>
    rw [List.foldl_cons, ih, rosterStep_mem]
    simp only [List.mem_cons]
    constructor
    · rintro ((h | h) | ⟨j, hj, hprop⟩)
      · exact Or.inl h
      · exact Or.inr ⟨it, Or.inl rfl, h⟩
      · exact Or.inr ⟨j, Or.inr hj, hprop⟩
    · rintro (h | ⟨j, (rfl | hj), hprop⟩)
      · exact Or.inl (Or.inl h)
      · exact Or.inl (Or.inr hprop)
      · exact Or.inr ⟨j, hj, hprop⟩

/-- C7: in the contextual second pass, the date group's confirmed roster is
exactly the set of names matched `deterministic` or `fuzzy` in the group's
initial outcomes; the pass maps every row through `resolveItem` against that
roster; a row with an ambiguous outcome and a non-empty candidate set is
rewritten to the unique candidate lying in the roster (fields from that
member, level `contextual`, score 99) when exactly one candidate does, and
is left unchanged when zero or two or more candidates do. -/
theorem c7_contextual_resolution (items : List Item) (it : Item) (cands : List Info)
    (hamb : it.result.match_level = ("ambiguous").data)
    (hc : it.candidates = some cands) (hne : cands ≠ []) :
    (∀ nm, nm ∈ dailyRoster items ↔ ∃ j ∈ items,
        (j.result.match_level = ("deterministic").data ∨
         j.result.match_level = ("fuzzy").data) ∧
        j.result.matched_name = some nm ∧ nm ≠ []) ∧
    contextualGroup items = items.map (resolveItem (dailyRoster items)) ∧
    (∀ best, cands.filter (fun c => decide (c.full_name ∈ dailyRoster items)) = [best] →
        resolveItem (dailyRoster items) it =
          { it with result :=
            { it.result with
              matched_name := some best.full_name
              party_id := some best.party_id
              gender := some best.gender
              district_id := some best.district_id
              match_level := ("contextual").data
              match_score := some 99 } }) ∧
    ((cands.filter (fun c => decide (c.full_name ∈ dailyRoster items))).length ≠ 1 →
        resolveItem (dailyRoster items) it = it) := by
  refine ⟨fun nm => ?_, rfl, fun best hbest => ?_, fun hlen => ?_⟩
  · rw [dailyRoster, foldl_rosterStep_mem]
    simp
  · simp [resolveItem, hamb, hc, hne, hbest]
  · rcases hf : cands.filter (fun c => decide (c.full_name ∈ dailyRoster items)) with
      _ | ⟨a, _ | ⟨b, l⟩⟩
    · simp [resolveItem, hamb, hc, hne, hf]
    · exact absurd (by rw [hf] : (cands.filter
        (fun c => decide (c.full_name ∈ dailyRoster items))).length = [a].length) hlen
    · simp [resolveItem, hamb, hc, hne, hf]

/-- Witness for `c7_contextual_resolution`: in a date group where an earlier
row was deterministically matched to `Sylvain Levesque`, the ambiguous
Levesque row is rewritten to that member with level `contextual` and score
99. -/
theorem c7_witness :
    resolveItem (dailyRoster itemsW) itemAmb = itemAmbResolved :=
  (c7_contextual_resolution itemsW itemAmb [iMat, iSyl]
    (by decide) (by decide) (by decide)).2.2.1 iSyl (by decide)

/-- Helper: phase 1 fails on every row: the statement
`category, speaker_norm = normalize_speaker(speaker_raw)` unpacks a 3-tuple
into two variables (raising `ValueError`), and for a non-ISO date string
`date.fromisoformat` raises `ValueError` even earlier. -/
theorem processRow_error (legislatures : List Leg) (members : List Member)
    (θ : ℚ) (i : Nat) (row : Row) :
    ∃ e, processRow legislatures members θ i row = Except.error e := by
  unfold processRow
  cases hd : row.event_date with
  | s t =>
    cases hf : fromisoformat t with
    | none =>
      exact ⟨PyErr.valueErrorInvalidIso,
        by simp [date_to_legislature, hf, unpack2of3, bind, Except.bind]⟩
    | some dt =>
      exact ⟨PyErr.valueErrorUnpack,
        by simp [date_to_legislature, hf, unpack2of3, bind, Except.bind]⟩
  | d dt =>
    exact ⟨PyErr.valueErrorUnpack,
      by simp [date_to_legislature, unpack2of3, bind, Except.bind]⟩

/-- C1: for every corpus with at least one row, `match_corpus` raises a
`ValueError` before producing any outcome — `normalize_speaker` returns a
3-tuple that `match_corpus` unpacks into exactly two variables — so
`match_corpus` returns normally (with the empty list) exactly when the
input corpus is empty. -/
theorem c1_match_corpus_raises (corpus_rows : List Row) (members : List Member)
    (θ : ℚ) (legislatures : List Leg) :
    (exceptOk (match_corpus corpus_rows members θ legislatures) = true ↔
      corpus_rows = []) ∧
    match_corpus ([] : List Row) members θ legislatures = Except.ok [] := by
  have hempty : match_corpus ([] : List Row) members θ legislatures = Except.ok [] := by
    simp [match_corpus, phase1, groupByDate, bind, Except.bind, List.replicate]
  refine ⟨⟨fun hok => ?_, fun h => by rw [h, hempty]; rfl⟩, hempty⟩
  cases corpus_rows with
  | nil => rfl
  | cons r rs =>
    obtain ⟨e, he⟩ := processRow_error legislatures members θ 0 r
    have herr : match_corpus (r :: rs) members θ legislatures = Except.error e := by
      simp [match_corpus, phase1, he, bind, Except.bind]
    rw [herr] at hok
    exact absurd hok (by simp [exceptOk])

/-!  Lemmas about the character pipeline shared by `normalize_member_name`
and the final cleanup of `normalize_speaker`. -/

theorem azsp_cases {c : Char} (h : isAzSpB c = true) :
    (97 ≤ c.toNat ∧ c.toNat ≤ 122) ∨ c = ' ' := of_decide_eq_true h

theorem azsp_not_space {c : Char} (h : isAzSpB c = true) (hne : c ≠ ' ') :
    pyIsSpace c = false := by
  have hl : 97 ≤ c.toNat ∧ c.toNat ≤ 122 := (azsp_cases h).resolve_right hne
  simp only [pyIsSpace, decide_eq_false_iff_not]
  push_neg
  refine ⟨hne, ?_, ?_, ?_, by omega, by omega⟩ <;>
    (intro he; subst he; exact absurd hl (by decide))

theorem space_pyIsSpace : pyIsSpace ' ' = true := by decide

theorem not_space_of_not_pyIsSpace {c : Char} (h : pyIsSpace c = false) : c ≠ ' ' := by
  intro he
  subst he
  exact absurd h (by decide)

theorem filterAlpha_all (s : Str) : (filterAlpha s).all isAzSpB = true :=
  List.all_eq_true.mpr (fun _ hc => (List.mem_filter.mp hc).2)

theorem all_dropWhile {s : Str} (q : Char → Bool) (h : s.all isAzSpB = true) :
    (s.dropWhile q).all isAzSpB = true := by
  induction s with
  | nil => rfl
  | cons c rest ih =>
    rw [List.all_cons, Bool.and_eq_true] at h
    rw [List.dropWhile_cons]
    by_cases hq : q c = true
    · rw [if_pos hq]; exact ih h.2
    · rw [if_neg hq]
      rw [List.all_cons, Bool.and_eq_true]
      exact ⟨h.1, h.2⟩

theorem all_stripEnd {s : Str} (h : s.all isAzSpB = true) :
    (stripEnd s).all isAzSpB = true := by
  induction s with
  | nil => rfl
  | cons c rest ih =>
    rw [List.all_cons, Bool.and_eq_true] at h
    rw [stripEnd]
    split
    · rfl
    · rw [List.all_cons, Bool.and_eq_true]
      exact ⟨h.1, ih h.2⟩

theorem all_collapseWSGo {s : Str} (b : Bool) (h : s.all isAzSpB = true) :
    (collapseWSGo s b).all isAzSpB = true := by
  induction s generalizing b with
  | nil => rfl
  | cons c rest ih =>
    rw [List.all_cons, Bool.and_eq_true] at h
    rw [collapseWSGo]
    by_cases hs : pyIsSpace c = true
    · rw [if_pos hs]
      cases b with
      | true => exact ih true h.2
      | false =>
        rw [if_neg (by decide : ¬ (false = true))]
        rw [List.all_cons, Bool.and_eq_true]
        exact ⟨by decide, ih true h.2⟩
    · rw [if_neg hs]
      rw [List.all_cons, Bool.and_eq_true]
      exact ⟨h.1, ih false h.2⟩

theorem noTwoSpaces_cons {a : Char} {X : Str}
    (hd : X.head? = some ' ' → a ≠ ' ') (h : noTwoSpaces X = true) :
    noTwoSpaces (a :: X) = true := by
  cases X with
  | nil => rfl
  | cons x xs =>
    rw [noTwoSpaces]
    rw [if_neg]
    · exact h
    · rintro ⟨ha, hx⟩
      exact hd (by simp [hx]) ha

theorem noTwoSpaces_tail {a : Char} {X : Str} (h : noTwoSpaces (a :: X) = true) :
    noTwoSpaces X = true := by
  cases X with
  | nil => rfl
  | cons x xs =>
    rw [noTwoSpaces] at h
    by_cases hc : a = ' ' ∧ x = ' '
    · rw [if_pos hc] at h; exact absurd h (by simp)
    · rwa [if_neg hc] at h

theorem noTwoSpaces_pair {a : Char} {X : Str} (h : noTwoSpaces (a :: X) = true)
    (hx : X.head? = some ' ') : a ≠ ' ' := by
  cases X with
  | nil => exact absurd hx (by simp)
  | cons x xs =>
    rw [List.head?_cons, Option.some.injEq] at hx
    rw [noTwoSpaces] at h
    intro ha
    rw [if_pos ⟨ha, hx⟩] at h
    exact absurd h (by simp)

theorem collapseWSGo_true_head (s : Str) : (collapseWSGo s true).head? ≠ some ' ' := by
  induction s with
  | nil => simp [collapseWSGo]
  | cons c rest ih =>
    rw [collapseWSGo]
    by_cases hs : pyIsSpace c = true
    · rw [if_pos hs]; exact ih
    · rw [if_neg hs]
      rw [List.head?_cons]
      intro he
      exact not_space_of_not_pyIsSpace (by simpa using hs) (Option.some.inj he)

theorem noTwoSpaces_collapseWSGo (s : Str) (b : Bool) :
    noTwoSpaces (collapseWSGo s b) = true := by
  induction s generalizing b with
  | nil => rfl
  | cons c rest ih =>
    rw [collapseWSGo]
    by_cases hs : pyIsSpace c = true
    · rw [if_pos hs]
      cases b with
      | true => exact ih true
      | false =>
        exact noTwoSpaces_cons
          (fun hh _ => absurd hh (collapseWSGo_true_head rest)) (ih true)
    · rw [if_neg hs]
      exact noTwoSpaces_cons
        (fun _ => not_space_of_not_pyIsSpace (by simpa using hs)) (ih false)

theorem noTwoSpaces_dropWhile {s : Str} (q : Char → Bool)
    (h : noTwoSpaces s = true) : noTwoSpaces (s.dropWhile q) = true := by
  induction s with
  | nil => rfl
  | cons c rest ih =>
    rw [List.dropWhile_cons]
    by_cases hq : q c = true
    · rw [if_pos hq]; exact ih (noTwoSpaces_tail h)
    · rw [if_neg hq]; exact h

theorem head?_stripEnd {s : Str} {x : Char} (h : (stripEnd s).head? = some x) :
    s.head? = some x := by
  cases s with
  | nil => exact absurd h (by simp [stripEnd])
  | cons c rest =>
    rw [stripEnd] at h
    split at h
    · exact absurd h (by simp)
    · rw [List.head?_cons] at h ⊢
      exact h

theorem noTwoSpaces_stripEnd {s : Str} (h : noTwoSpaces s = true) :
    noTwoSpaces (stripEnd s) = true := by
  induction s with
  | nil => rfl
  | cons c rest ih =>
    rw [stripEnd]
    split
    · rfl
    · refine noTwoSpaces_cons (fun hh => ?_) (ih (noTwoSpaces_tail h))
      exact noTwoSpaces_pair h (head?_stripEnd hh)

theorem dropWhile_head_false {s : Str} {q : Char → Bool} {x : Char}
    (h : (s.dropWhile q).head? = some x) : q x = false := by
  induction s with
  | nil => exact absurd h (by simp)
  | cons c rest ih =>
    rw [List.dropWhile_cons] at h
    by_cases hq : q c = true
    · rw [if_pos hq] at h; exact ih h
    · rw [if_neg hq] at h
      rw [List.head?_cons, Option.some.injEq] at h
      subst h
      exact Bool.eq_false_iff.mpr hq

theorem getLast?_stripEnd {s : Str} {x : Char}
    (h : (stripEnd s).getLast? = some x) : pyIsSpace x = false := by
  induction s with
  | nil => exact absurd h (by simp [stripEnd])
  | cons c rest ih =>
    rw [stripEnd] at h
    split at h
    · exact absurd h (by simp)
    · rename_i hcond
      cases hr : stripEnd rest with
      | nil =>
        rw [hr] at h
        rw [List.getLast?_singleton, Option.some.injEq] at h
        subst h
        by_cases hs : pyIsSpace c = true
        · exact absurd ⟨hr, hs⟩ hcond
        · simpa using hs
      | cons y ys =>
        rw [hr] at h
        rw [List.getLast?_cons_cons] at h
        exact ih (by rw [hr]; exact h)

theorem canon_pipeline (x : Str) :
    canonName (pyStrip (collapseWS (filterAlpha x))) = true := by
  have hall : (pyStrip (collapseWS (filterAlpha x))).all isAzSpB = true :=
    all_stripEnd (all_dropWhile _ (all_collapseWSGo false (filterAlpha_all x)))
  have htwo : noTwoSpaces (pyStrip (collapseWS (filterAlpha x))) = true :=
    noTwoSpaces_stripEnd (noTwoSpaces_dropWhile _ (noTwoSpaces_collapseWSGo _ false))
  have hhead : (pyStrip (collapseWS (filterAlpha x))).head? ≠ some ' ' := by
    intro hh
    have h1 := head?_stripEnd hh
    have h2 := dropWhile_head_false h1
    exact absurd h2 (by simp [space_pyIsSpace])
  have hlast : (pyStrip (collapseWS (filterAlpha x))).getLast? ≠ some ' ' := by
    intro hh
    have h1 := getLast?_stripEnd hh
    exact absurd h1 (by simp [space_pyIsSpace])
  unfold canonName
  simp only [Bool.and_eq_true, decide_eq_true_eq]
  exact ⟨⟨⟨hall, htwo⟩, hhead⟩, hlast⟩

theorem canonName_parts {s : Str} (h : canonName s = true) :
    s.all isAzSpB = true ∧ noTwoSpaces s = true ∧
    s.head? ≠ some ' ' ∧ s.getLast? ≠ some ' ' := by
  unfold canonName at h
  simp only [Bool.and_eq_true, decide_eq_true_eq] at h
  exact ⟨h.1.1.1, h.1.1.2, h.1.2, h.2⟩

theorem pyLowerChar_id {c : Char} (h : isAzSpB c = true) : pyLowerChar c = c := by
  rcases azsp_cases h with hc | hc
  · unfold pyLowerChar
    rw [if_neg (by omega), if_neg (by omega)]
  · subst hc; decide

theorem pyLower_id {s : Str} (h : s.all isAzSpB = true) : pyLower s = s := by
  induction s with
  | nil => rfl
  | cons c rest ih =>
    rw [List.all_cons, Bool.and_eq_true] at h
    show pyLowerChar c :: pyLower rest = c :: rest
    rw [pyLowerChar_id h.1, ih h.2]

theorem nfdChar_id {c : Char} (h : isAzSpB c = true) : nfdChar c = [c] := by
  have : c.toNat < 192 := by
    rcases azsp_cases h with hc | hc
    · omega
    · subst hc; decide
  unfold nfdChar
  rw [if_pos this]

theorem not_isMn_azsp {c : Char} (h : isAzSpB c = true) : isMn c = false := by
  have : c.toNat < 768 := by
    rcases azsp_cases h with hc | hc
    · omega
    · subst hc; decide
  simp only [isMn, decide_eq_false_iff_not]
  omega

theorem strip_accents_id {s : Str} (h : s.all isAzSpB = true) : strip_accents s = s := by
  have aux : ∀ t : Str, t.all isAzSpB = true →
      ((t.map nfdChar).flatten).filter (fun c => ¬ isMn c) = t := by
    intro t ht
    induction t with
    | nil => rfl
    | cons c rest ih =>
      rw [List.all_cons, Bool.and_eq_true] at ht
      rw [List.map_cons, List.flatten_cons, nfdChar_id ht.1]
      rw [List.singleton_append, List.filter_cons]
      rw [if_pos (by simp [not_isMn_azsp ht.1])]
      rw [ih ht.2]
  unfold strip_accents
  by_cases hs : s = []
  · rw [if_pos hs, hs]
  · rw [if_neg hs]
    exact aux s h

theorem filterAlpha_id {s : Str} (h : s.all isAzSpB = true) : filterAlpha s = s :=
  List.filter_eq_self.mpr (fun c hc => List.all_eq_true.mp h c hc)

theorem collapseWSGo_id {s : Str} (hall : s.all isAzSpB = true)
    (htwo : noTwoSpaces s = true) :
    collapseWSGo s false = s ∧ (s.head? ≠ some ' ' → collapseWSGo s true = s) := by
  induction s with
  | nil => exact ⟨rfl, fun _ => rfl⟩
  | cons c rest ih =>
    rw [List.all_cons, Bool.and_eq_true] at hall
    obtain ⟨ihf, iht⟩ := ih hall.2 (noTwoSpaces_tail htwo)
    by_cases hc : c = ' '
    · subst hc
      have hrest : rest.head? ≠ some ' ' := by
        intro hh
        exact noTwoSpaces_pair htwo hh rfl
      constructor
      · rw [collapseWSGo, if_pos space_pyIsSpace,
          if_neg (by decide : ¬ (false = true)), iht hrest]
      · intro hh
        exact absurd (List.head?_cons) hh
    · have hs : pyIsSpace c = false := azsp_not_space hall.1 hc
      constructor
      · rw [collapseWSGo, if_neg (by simp [hs]), ihf]
      · intro _
        rw [collapseWSGo, if_neg (by simp [hs]), ihf]

theorem dropWhile_id {s : Str} (hhead : s.head? ≠ some ' ')
    (hall : s.all isAzSpB = true) : s.dropWhile pyIsSpace = s := by
  cases s with
  | nil => rfl
  | cons c rest =>
    rw [List.all_cons, Bool.and_eq_true] at hall
    have hc : c ≠ ' ' := by
      intro he
      exact hhead (by simp [he])
    rw [List.dropWhile_cons, if_neg (by simp [azsp_not_space hall.1 hc])]

theorem stripEnd_id {s : Str} (hlast : s.getLast? ≠ some ' ')
    (hall : s.all isAzSpB = true) : stripEnd s = s := by
  induction s with
  | nil => rfl
  | cons c rest ih =>
    rw [List.all_cons, Bool.and_eq_true] at hall
    by_cases hrn : rest = []
    · subst hrn
      have hc : c ≠ ' ' := by
        intro he
        exact hlast (by simp [he])
      rw [stripEnd]
      rw [if_neg]
      · rfl
      · rintro ⟨_, hsp⟩
        exact absurd hsp (by simp [azsp_not_space hall.1 hc])
    · have hlast' : rest.getLast? ≠ some ' ' := by
        cases rest with
        | nil => exact absurd rfl hrn
        | cons y ys => rwa [List.getLast?_cons_cons] at hlast
      have hrec : stripEnd rest = rest := ih hlast' hall.2
      rw [stripEnd]
      rw [if_neg]
      · rw [hrec]
      · rintro ⟨hnil, _⟩
        rw [hrec] at hnil
        exact hrn hnil

/-- C9: `normalize_member_name` is idempotent — normalizing an already
normalized member name returns it unchanged. -/
theorem c9_normalize_member_name_idempotent (name : Str) :
    normalize_member_name (normalize_member_name name)
      = normalize_member_name name := by
  by_cases h0 : name = []
  · subst h0; rfl
  · have hcanon : canonName (normalize_member_name name) = true := by
      unfold normalize_member_name
      rw [if_neg h0]
      exact canon_pipeline _
    obtain ⟨hall, htwo, hhead, hlast⟩ := canonName_parts hcanon
    generalize hr : normalize_member_name name = r at hall htwo hhead hlast ⊢
    by_cases hrnil : r = []
    · subst hrnil; rfl
    · have hcomma : ¬ (',' ∈ r) := by
        intro hmem
        exact absurd (List.all_eq_true.mp hall _ hmem) (by decide)
      unfold normalize_member_name
      rw [if_neg hrnil, if_neg hcomma]
      show pyStrip (collapseWS (filterAlpha (strip_accents (pyLower r)))) = r
      rw [pyLower_id hall, strip_accents_id hall, filterAlpha_id hall]
      show stripEnd ((collapseWSGo r false).dropWhile pyIsSpace) = r
      rw [(collapseWSGo_id hall htwo).1, dropWhile_id hhead hall,
        stripEnd_id hlast hall]

/-- C10: for every raw speaker string classified as `person`, the normalized
name returned by `normalize_speaker` contains only lowercase Latin letters
and single space separators, with no leading or trailing whitespace. -/
theorem c10_person_name_canonical (raw : Str)
    (h : (normalize_speaker raw).1 = ("person").data) :
    canonName (normalize_speaker raw).2.1 = true := by
  by_cases hcat : classify_speaker raw = ("person").data
  · unfold normalize_speaker
    rw [if_neg (fun hn => hn hcat)]
    exact canon_pipeline _
  · exfalso
    apply hcat
    unfold normalize_speaker at h
    rw [if_pos hcat] at h
    exact h

/-- Witness for `c10_person_name_canonical` at the raw string `M. Arcand`
(classified `person`, normalized to `arcand`). -/
theorem c10_witness : canonName (normalize_speaker (("M. Arcand").data)).2.1 = true :=
  c10_person_name_canonical (("M. Arcand").data) (by decide)
